import Mathlib

/-!
# Verification of the literature catalog and run-code proxy server (`main.go`)

Go strings are byte sequences: `len(s)` counts bytes and `s[i]` is a byte.  They are
embedded as lists of byte values (`List Nat`), and the library functions used by
`main.go` (`strings.*`, `filepath.Ext`, `url.PathEscape`, `net/http`) are embedded
after the Go standard library, byte by byte.
-/

namespace GoLearn

/-! ## Go strings -/

/-- UTF-8 encoding of one code point, as the Go compiler stores the characters of a
string literal. -/
def utf8Bytes (c : Nat) : List Nat :=
  if c < 0x80 then [c]
  else if c < 0x800 then [0xC0 + c / 0x40, 0x80 + c % 0x40]
  else if c < 0x10000 then [0xE0 + c / 0x1000, 0x80 + c / 0x40 % 0x40, 0x80 + c % 0x40]
  else [0xF0 + c / 0x40000, 0x80 + c / 0x1000 % 0x40, 0x80 + c / 0x40 % 0x40, 0x80 + c % 0x40]

/-- The bytes of a Go string literal. -/
def goBytes (s : String) : List Nat :=
  s.toList.flatMap (fun c => utf8Bytes c.toNat)

/-- Go `strings.HasPrefix(s, p)`. -/
def HasPrefix (s p : List Nat) : Bool :=
  p.length ≤ s.length && s.take p.length == p

/-- Go `strings.HasSuffix(s, suffix)`. -/
def HasSuffix (s suffix : List Nat) : Bool :=
  suffix.length ≤ s.length && s.drop (s.length - suffix.length) == suffix

/-- Go `strings.TrimSuffix(s, suffix)`: `s` without the trailing `suffix`, or `s` itself
when it does not end in `suffix`. -/
def TrimSuffix (s suffix : List Nat) : List Nat :=
  if HasSuffix s suffix then s.take (s.length - suffix.length) else s

/-- The replacement loop of Go `strings.Replace` for a non-empty `old`, scanning left to
right; `skip` counts the bytes of an occurrence just replaced that are still to be
passed over, so that occurrences do not overlap. -/
def replaceLoop (old new : List Nat) : Nat → List Nat → List Nat
  | _, [] => []
  | skip + 1, _ :: t => replaceLoop old new skip t
  | 0, c :: t =>
    if old.isPrefixOf (c :: t) then new ++ replaceLoop old new (old.length - 1) t
    else c :: replaceLoop old new 0 t

/-- Go `strings.ReplaceAll(s, old, new)` for a non-empty `old` (the only way `main.go`
calls it): every non-overlapping occurrence of `old`, from the left, becomes `new`.
With `old == new` Go returns `s` unchanged, which is also what replacing yields. -/
def ReplaceAll (s old new : List Nat) : List Nat :=
  replaceLoop old new 0 s

/-- Go `os.IsPathSeparator(c)`: `'/'` everywhere, and also `'\\'` on Windows. -/
def IsPathSeparator (windows : Bool) (c : Nat) : Bool :=
  c == 47 || (windows && c == 92)

/-- The loop of Go `filepath.Ext`, `for i := len(path) - 1; i >= 0 && !os.IsPathSeparator(path[i]); i--`
with body `if path[i] == '.' { return path[i:] }`; the counter argument is `i + 1`. -/
def extLoop (windows : Bool) (path : List Nat) : Nat → List Nat
  | 0 => []
  | i + 1 =>
    match path.get? i with
    | none => []
    | some c =>
      if IsPathSeparator windows c then []
      else if c = 46 then path.drop i
      else extLoop windows path i

/-- Go `filepath.Ext(path)`: the suffix beginning at the final dot in the final element
of `path`; empty if there is no dot. -/
def Ext (windows : Bool) (path : List Nat) : List Nat :=
  extLoop windows path path.length

/-! ## `cleanFileName` -/

/-- The guard of the `if` in `cleanFileName`:
`len(name) > 2 && name[1] == ' ' && name[0] >= '0' && name[0] <= '9'`. -/
def ordinalGuard (name : List Nat) : Bool :=
  decide (name.length > 2) && name.get? 1 == some 32 &&
    (match name.get? 0 with
     | some c => decide (48 ≤ c) && decide (c ≤ 57)
     | none => false)

/-- Embedding of `cleanFileName` (main.go, lines 131-141). -/
def cleanFileName (windows : Bool) (name : List Nat) : List Nat :=
  let nameWithoutExt := TrimSuffix name (Ext windows name)
  let name := ReplaceAll nameWithoutExt (goBytes "_") (goBytes " ")
  let name := ReplaceAll name (goBytes "-") (goBytes " ")
  if ordinalGuard name then name.drop 2 else name

/-! ## `url.PathEscape` -/

/-- Go `shouldEscape(c, encodePathSegment)` of `net/url`: letters, digits and
`- _ . ~` are kept; of the reserved characters `$ & + , / : ; = ? @` only
`/ ; , ?` are escaped; every other byte is escaped. -/
def shouldEscape (c : Nat) : Bool :=
  if (97 ≤ c ∧ c ≤ 122) ∨ (65 ≤ c ∧ c ≤ 90) ∨ (48 ≤ c ∧ c ≤ 57) then false
  else if c = 45 ∨ c = 95 ∨ c = 46 ∨ c = 126 then false
  else if c = 36 ∨ c = 38 ∨ c = 43 ∨ c = 44 ∨ c = 47 ∨ c = 58 ∨ c = 59 ∨ c = 61 ∨
      c = 63 ∨ c = 64 then
    c == 47 || c == 59 || c == 44 || c == 63
  else true

/-- The digit `"0123456789ABCDEF"[n]` of `net/url`. -/
def upperhex (n : Nat) : Nat :=
  if n < 10 then 48 + n else 55 + n

/-- Go `url.PathEscape(s)`: every byte that `shouldEscape` is written `%XX`, the other
bytes are kept. -/
def PathEscape (s : List Nat) : List Nat :=
  s.flatMap (fun c => if shouldEscape c then [37, upperhex (c / 16), upperhex (c % 16)] else [c])

/-! ## `net/http` -/

/-- Go `http.Header`, a map from header names (in canonical form, as all the names of
`main.go` are written) to their values. -/
abbrev Header := List (List Nat × List (List Nat))

/-- Go `Header.Get(key)`: the first value of `key`, or `""`. -/
def Header.Get (h : Header) (key : List Nat) : List Nat :=
  match h.lookup key with
  | some (v :: _) => v
  | _ => []

/-- Go `Header.Del(key)`. -/
def Header.Del (h : Header) (key : List Nat) : Header :=
  h.filter (fun e => e.1 != key)

/-- Go `Header.Set(key, value)`: `key` gets the single value `value`. -/
def Header.Set (h : Header) (key value : List Nat) : Header :=
  (key, [value]) :: Header.Del h key

/-- The state of an `http.ResponseWriter`: the header map `w.Header()`; what has been
sent of the final response: the status code with the header map as it was when the
status line was written (`none` before that), and the body bytes; the informational
(1xx) responses sent before it; and whether a call on the writer has panicked.  A
handler whose call panics runs no further statement, so a writer that has panicked
ignores later writes.  Headers the server adds on its own (`Date`, `Content-Length`, a
sniffed `Content-Type`) are not part of this state. -/
structure ResponseWriter where
  header : Header
  sent : Option (Nat × Header)
  body : List Nat
  informational : List (Nat × Header)
  panicked : Bool

/-- The `ResponseWriter` a handler is called with. -/
def ResponseWriter.fresh : ResponseWriter :=
  { header := [], sent := none, body := [], informational := [], panicked := false }

/-- Go `w.Header().Set(key, value)`. -/
def ResponseWriter.SetHeader (w : ResponseWriter) (key value : List Nat) : ResponseWriter :=
  { w with header := Header.Set w.header key value }

/-- Go `checkWriteHeaderCode(code)` of `net/http` panics exactly when this holds:
`code < 100 || code > 999`. -/
def invalidWriteHeaderCode (code : Nat) : Bool :=
  decide (code < 100) || decide (code > 999)

/-- Go `bodyAllowedForStatus(status)` of `net/http`: no body with 1xx, 204 and 304. -/
def bodyAllowedForStatus (status : Nat) : Bool :=
  if 100 ≤ status ∧ status ≤ 199 then false
  else if status = 204 then false
  else if status = 304 then false
  else true

/-- Go `w.WriteHeader(code)` of the server's `ResponseWriter`: a call after the header was
written changes nothing; otherwise a code below 100 or above 999 panics, before
anything is sent; an informational code (1xx other than 101) sends an informational
response with the current headers (`Content-Length` and `Transfer-Encoding` left out)
and leaves the final header unwritten; any other code sends the status line and the
current headers. -/
def ResponseWriter.WriteHeader (w : ResponseWriter) (code : Nat) : ResponseWriter :=
  if w.panicked then w
  else
    match w.sent with
    | some _ => w
    | none =>
      if invalidWriteHeaderCode code then { w with panicked := true }
      else if 100 ≤ code ∧ code ≤ 199 ∧ code ≠ 101 then
        { w with
          informational := w.informational ++
            [(code, Header.Del (Header.Del w.header (goBytes "Content-Length"))
              (goBytes "Transfer-Encoding"))] }
      else { w with sent := some (code, w.header) }

/-- Go `w.Write(b)`: calls `WriteHeader(http.StatusOK)` first if the header has not been
written, then sends `b`, unless the status written allows no body
(`ErrBodyNotAllowed`). -/
def ResponseWriter.Write (w : ResponseWriter) (b : List Nat) : ResponseWriter :=
  if w.panicked then w
  else
    let w := w.WriteHeader 200
    match w.sent with
    | some (code, _) => if bodyAllowedForStatus code then { w with body := w.body ++ b } else w
    | none => w

/-- Go `io.Copy(w, src)` for a source that yields the bytes `b`: the bytes are written in
order; nothing is written, and so no header either, when there are none. -/
def Copy (w : ResponseWriter) (b : List Nat) : ResponseWriter :=
  if b = [] then w else w.Write b

/-- Go `http.Error(w, error, code)`. -/
def Error (w : ResponseWriter) (error : List Nat) (code : Nat) : ResponseWriter :=
  let h := Header.Del w.header (goBytes "Content-Length")
  let h := Header.Set h (goBytes "Content-Type") (goBytes "text/plain; charset=utf-8")
  let h := Header.Set h (goBytes "X-Content-Type-Options") (goBytes "nosniff")
  let w := { w with header := h }
  let w := w.WriteHeader code
  w.Write (error ++ goBytes "\n")

/-- What the client receives. -/
structure Response where
  status : Nat
  header : Header
  body : List Nat

/-- The response the server has sent once the handler has returned: a handler that
never wrote the header gets `200` with its headers. -/
def ResponseWriter.finish (w : ResponseWriter) : Response :=
  match w.sent with
  | some (code, h) => { status := code, header := h, body := w.body }
  | none => { status := 200, header := w.header, body := w.body }

/-- What the client receives, if anything: the response of `finish` when the handler
returned, and none when it panicked in `WriteHeader`, which is before anything is sent
(the server then closes the connection). -/
def ResponseWriter.served (w : ResponseWriter) : Option Response :=
  if w.panicked then none else some w.finish

/-! ## The catalog handler -/

/-- Go `os.DirEntry`, with the two methods `main.go` calls. -/
structure DirEntry where
  Name : List Nat
  IsDir : Bool

/-- `BookData` (main.go, lines 15-19). -/
structure BookData where
  DisplayName : List Nat
  FileName : List Nat
  URL : List Nat
deriving DecidableEq

/-- The loop of `literatureAPIHandler` (main.go, lines 60-78), from `var books []BookData`
on; the `nil` slice is the empty list. -/
def buildBooks (windows : Bool) (files : List DirEntry) : List BookData :=
  files.foldl
    (fun books file =>
      if file.IsDir || HasPrefix file.Name (goBytes ".") then books
      else
        let fileName := file.Name
        let displayName := cleanFileName windows fileName
        let url := goBytes "/literature/" ++ PathEscape fileName
        books ++ [{ DisplayName := displayName, FileName := fileName, URL := url }])
    []

/-- Go `json.Marshal` of one `BookData`, with the field names of its struct tags;
`jsonString` is the encoding of a string as a JSON string literal. -/
def marshalBook (jsonString : List Nat → List Nat) (b : BookData) : List Nat :=
  goBytes "\x7b\"displayName\":" ++ jsonString b.DisplayName ++
    goBytes ",\"fileName\":" ++ jsonString b.FileName ++
    goBytes ",\"url\":" ++ jsonString b.URL ++ goBytes "\x7d"

/-- Go `json.Marshal(books)` for `books []BookData`: `null` for the `nil` slice, otherwise
the array of the encoded elements.  The loop of the handler never yields an empty slice
that is not `nil`. -/
def marshalBooks (jsonString : List Nat → List Nat) (books : List BookData) : List Nat :=
  match books with
  | [] => goBytes "null"
  | _ =>
    goBytes "[" ++ List.intercalate (goBytes ",") (books.map (marshalBook jsonString)) ++
      goBytes "]"

/-- Go `json.NewEncoder(w).Encode(books)`: writes the JSON encoding and a newline. -/
def Encode (jsonString : List Nat → List Nat) (w : ResponseWriter) (books : List BookData) :
    ResponseWriter :=
  w.Write (marshalBooks jsonString books ++ goBytes "\n")

/-- Embedding of `literatureAPIHandler` (main.go, lines 49-83).  `readDir` is what
`os.ReadDir(literatureDir)` returned: the entries and the error (`none` for `nil`).  The
handler does not read its request. -/
def literatureAPIHandler (windows : Bool) (jsonString : List Nat → List Nat)
    (readDir : List DirEntry × Option (List Nat)) (w : ResponseWriter) : ResponseWriter :=
  let w := w.SetHeader (goBytes "Access-Control-Allow-Origin") (goBytes "*")
  let files := readDir.1
  match readDir.2 with
  | some err => Error w (goBytes "Помилка читання папки: " ++ err) 500
  | none =>
    let books := buildBooks windows files
    let w := w.SetHeader (goBytes "Content-Type") (goBytes "application/json")
    Encode jsonString w books

/-- The response to a request that `literatureAPIHandler` serves. -/
def literatureResponse (windows : Bool) (jsonString : List Nat → List Nat)
    (readDir : List DirEntry × Option (List Nat)) : Response :=
  (literatureAPIHandler windows jsonString readDir ResponseWriter.fresh).finish

/-! ## The run-code proxy handler -/

/-- The fields of the inbound `*http.Request` that `runCodeProxyHandler` reads. -/
structure Request where
  Method : List Nat
  Header : Header
  Body : List Nat

/-- The outbound `*http.Request` built by `http.NewRequest`. -/
structure OutRequest where
  Method : List Nat
  URL : List Nat
  Header : Header
  Body : List Nat
deriving DecidableEq

/-- The fields of the `*http.Response` of `client.Do` that the handler reads. -/
structure UpstreamResponse where
  StatusCode : Nat
  Body : List Nat

/-- What a run of `runCodeProxyHandler` did: the state of its `ResponseWriter`, how many
outbound requests it constructed, and the outbound requests it sent, in order: the
requests it passed to `client.Do`. -/
structure ProxyRun where
  w : ResponseWriter
  constructed : Nat
  sent : List OutRequest

/-- `playgroundURL` (main.go, line 104). -/
def playgroundURL : List Nat := goBytes "https://play.golang.org/compile"

/-- Embedding of `runCodeProxyHandler` (main.go, lines 86-128), with the two library calls
that leave the process as arguments: `newRequest` for `http.NewRequest` and `clientDo`
for `client.Do`, each returning its result or its error.  What `client.Do` returns is the
answer at the end of the redirects that the default `http.Client` follows on its own. -/
def runCodeProxyHandler
    (newRequest : List Nat → List Nat → List Nat → Except (List Nat) OutRequest)
    (clientDo : OutRequest → Except (List Nat) UpstreamResponse)
    (r : Request) (w : ResponseWriter) : ProxyRun :=
  let w := w.SetHeader (goBytes "Access-Control-Allow-Origin") (goBytes "*")
  let w := w.SetHeader (goBytes "Access-Control-Allow-Headers") (goBytes "Content-Type")
  let w := w.SetHeader (goBytes "Access-Control-Allow-Methods") (goBytes "POST, OPTIONS")
  if r.Method = goBytes "OPTIONS" then
    { w := w.WriteHeader 200, constructed := 0, sent := [] }
  else if r.Method ≠ goBytes "POST" then
    { w := Error w (goBytes "Підтримується тільки POST-запит") 405, constructed := 0, sent := [] }
  else
    match newRequest (goBytes "POST") playgroundURL r.Body with
    | .error _ =>
      { w := Error w (goBytes "Помилка створення запиту") 500, constructed := 1, sent := [] }
    | .ok req =>
      let req := { req with
        Header := Header.Set req.Header (goBytes "Content-Type")
          (Header.Get r.Header (goBytes "Content-Type")) }
      match clientDo req with
      | .error err =>
        { w := Error w (goBytes "Помилка зв\x27язку з Go Playground: " ++ err) 502,
          constructed := 1, sent := [req] }
      | .ok resp =>
        let w := w.WriteHeader resp.StatusCode
        { w := Copy w resp.Body, constructed := 1, sent := [req] }

/-- The response to a request that `runCodeProxyHandler` serves, for a run that returned;
`ResponseWriter.served` tells whether it did. -/
def proxyResponse (run : ProxyRun) : Response :=
  run.w.finish

/-- The three CORS headers of the specification. -/
def hasCORS (h : Header) : Prop :=
  Header.Get h (goBytes "Access-Control-Allow-Origin") = goBytes "*" ∧
    Header.Get h (goBytes "Access-Control-Allow-Headers") = goBytes "Content-Type" ∧
    Header.Get h (goBytes "Access-Control-Allow-Methods") = goBytes "POST, OPTIONS"

/-- The catalog entry of the specification for a file name: the cleaned name, the name
as it is, and the fixed prefix followed by the percent-encoded name. -/
def bookFor (windows : Bool) (fileName : List Nat) : BookData :=
  { DisplayName := cleanFileName windows fileName, FileName := fileName,
    URL := goBytes "/literature/" ++ PathEscape fileName }

/-- The children the specification keeps: not a directory, name not starting with `'.'`. -/
def eligible (f : DirEntry) : Bool :=
  !f.IsDir && f.Name.head? != some 46

/-! ## The name-cleaning algorithm as the specification words it -/

/-- Step 1 of the specification: remove the substring from the last `'.'` onward, if
there is one. -/
def specStripExt (name : List Nat) : List Nat :=
  if 46 ∈ name then ((name.reverse.dropWhile (fun c => c != 46)).drop 1).reverse else name

/-- Steps 2 and 3 of the specification: replace every occurrence of the byte `b` with a
space. -/
def specToSpace (b : Nat) (name : List Nat) : List Nat :=
  name.map (fun c => if c = b then 32 else c)

/-- Step 4 of the specification: if the string is longer than 2, starts with an ASCII
digit and has a space second, drop its first two characters. -/
def specDropOrdinal : List Nat → List Nat
  | d :: 32 :: c :: rest => if 48 ≤ d ∧ d ≤ 57 then c :: rest else d :: 32 :: c :: rest
  | s => s

/-- The four-step name-cleaning algorithm of the specification. -/
def specClean (name : List Nat) : List Nat :=
  specDropOrdinal (specToSpace 45 (specToSpace 95 (specStripExt name)))

/-! ## Lemmas on the string functions -/

theorem replaceLoop_single (b n : Nat) (s : List Nat) :
    replaceLoop [b] [n] 0 s = s.map (fun c => if c = b then n else c) := by
  induction s with
  | nil => rfl
  | cons c t ih =>
    by_cases h : c = b
    · subst h
      simp [replaceLoop, ih, List.isPrefixOf]
    · have h2 : ¬ b = c := fun e => h e.symm
      simp [replaceLoop, ih, List.isPrefixOf, h, h2]

theorem ReplaceAll_underscore (s : List Nat) :
    ReplaceAll s (goBytes "_") (goBytes " ") = specToSpace 95 s :=
  replaceLoop_single 95 32 s

theorem ReplaceAll_hyphen (s : List Nat) :
    ReplaceAll s (goBytes "-") (goBytes " ") = specToSpace 45 s :=
  replaceLoop_single 45 32 s

theorem extLoop_cases (w : Bool) (path : List Nat) (n : Nat) :
    extLoop w path n = [] ∨
      ∃ i, i < n ∧ path.get? i = some 46 ∧ extLoop w path n = path.drop i := by
  induction n with
  | zero => exact Or.inl rfl
  | succ i ih =>
    unfold extLoop
    cases h : path.get? i with
    | none => exact Or.inl rfl
    | some c =>
      by_cases hs : IsPathSeparator w c = true
      · simp [hs]
      · by_cases hd : c = 46
        · subst hd
          right
          exact ⟨i, Nat.lt_succ_self i, h, by simp [hs]⟩
        · rcases ih with h0 | ⟨j, hj, hj1, hj2⟩
          · left
            simp [hs, hd, h0]
          · right
            exact ⟨j, Nat.lt_succ_of_lt hj, hj1, by simp [hs, hd, hj2]⟩

theorem get?_length_append (pre : List Nat) (c : Nat) (t : List Nat) :
    (pre ++ c :: t).get? pre.length = some c := by
  induction pre with
  | nil => rfl
  | cons a l ih => simpa using ih

theorem extLoop_skip (w : Bool) (suf : List Nat) :
    ∀ pre : List Nat, (∀ c ∈ suf, IsPathSeparator w c = false ∧ c ≠ 46) →
      extLoop w (pre ++ suf) (pre.length + suf.length) = extLoop w (pre ++ suf) pre.length := by
  induction suf with
  | nil => intro pre _; simp
  | cons c t ih =>
    intro pre h
    have h1 := ih (pre ++ [c]) (fun x hx => h x (List.mem_cons_of_mem c hx))
    have hc := h c (List.mem_cons_self c t)
    simp only [List.append_assoc, List.singleton_append, List.length_append,
      List.length_singleton] at h1
    have e : pre.length + (t.length + 1) = pre.length + 1 + t.length := by omega
    rw [List.length_cons, e, h1]
    have hg := get?_length_append pre c t
    rw [extLoop, hg]
    simp [hc.1, hc.2]

theorem Ext_no_dot (w : Bool) (name : List Nat) (h : 46 ∉ name) : Ext w name = [] := by
  rcases extLoop_cases w name name.length with h0 | ⟨i, _, hi, _⟩
  · exact h0
  · exact absurd (List.get?_mem hi) h

theorem IsPathSeparator_dot (w : Bool) : IsPathSeparator w 46 = false := by
  cases w <;> rfl

theorem Ext_split (w : Bool) (stem ext : List Nat)
    (hsep : ∀ c ∈ ext, IsPathSeparator w c = false) (hdot : 46 ∉ ext) :
    Ext w (stem ++ 46 :: ext) = 46 :: ext := by
  have h1 := extLoop_skip w ext (stem ++ [46])
    (fun c hc => ⟨hsep c hc, fun e => hdot (e ▸ hc)⟩)
  simp only [List.append_assoc, List.singleton_append, List.length_append,
    List.length_singleton] at h1
  have e : (stem ++ 46 :: ext).length = stem.length + 1 + ext.length := by
    simp only [List.length_append, List.length_cons]; omega
  have hg := get?_length_append stem 46 ext
  rw [Ext, e, h1, extLoop, hg]
  simp [IsPathSeparator_dot]

theorem TrimSuffix_append (s t : List Nat) : TrimSuffix (s ++ t) t = s := by
  simp [TrimSuffix, HasSuffix]

theorem TrimSuffix_nil (s : List Nat) : TrimSuffix s [] = s := by
  simp [TrimSuffix, HasSuffix]

theorem exists_last_dot (name : List Nat) (h : 46 ∈ name) :
    ∃ stem ext, name = stem ++ 46 :: ext ∧ 46 ∉ ext := by
  induction name with
  | nil => simp at h
  | cons c t ih =>
    by_cases ht : 46 ∈ t
    · obtain ⟨stem, ext, e, hx⟩ := ih ht
      exact ⟨c :: stem, ext, by simp [e], hx⟩
    · have hc : c = 46 := by
        rcases List.mem_cons.mp h with h1 | h1
        · exact h1.symm
        · exact absurd h1 ht
      exact ⟨[], t, by simp [hc], ht⟩

theorem specStripExt_split (stem ext : List Nat) (hdot : 46 ∉ ext) :
    specStripExt (stem ++ 46 :: ext) = stem := by
  have hp : ∀ a ∈ ext.reverse, (fun c : Nat => c != 46) a = true := by
    intro a ha
    have : a ≠ 46 := fun e => hdot (e ▸ List.mem_reverse.mp ha)
    simpa using this
  have hr : (stem ++ 46 :: ext).reverse = ext.reverse ++ 46 :: stem.reverse := by simp
  simp only [specStripExt, List.mem_append, List.mem_cons, true_or, or_true, if_true, hr]
  rw [List.dropWhile_append_of_pos hp]
  simp [List.dropWhile]

theorem specStripExt_no_dot (name : List Nat) (h : 46 ∉ name) : specStripExt name = name := by
  simp [specStripExt, h]

/-- On a name without path separators, trimming `filepath.Ext` is step 1 of the
specification. -/
theorem TrimSuffix_Ext (w : Bool) (name : List Nat)
    (hsep : ∀ c ∈ name, IsPathSeparator w c = false) :
    TrimSuffix name (Ext w name) = specStripExt name := by
  by_cases h : 46 ∈ name
  · obtain ⟨stem, ext, e, hx⟩ := exists_last_dot name h
    subst e
    rw [Ext_split w stem ext (fun c hc => hsep c (by simp [hc])) hx,
      specStripExt_split stem ext hx, TrimSuffix_append]
  · rw [Ext_no_dot w name h, specStripExt_no_dot name h, TrimSuffix_nil]

/-- The `if` of `cleanFileName` is step 4 of the specification. -/
theorem ordinalGuard_drop (s : List Nat) :
    (if ordinalGuard s then s.drop 2 else s) = specDropOrdinal s := by
  match s with
  | [] => rfl
  | [_] => rfl
  | [a, b] => simp [ordinalGuard, specDropOrdinal]
  | a :: b :: c :: rest =>
    by_cases hb : b = 32
    · subst hb
      by_cases hd : 48 ≤ a ∧ a ≤ 57
      · simp [ordinalGuard, specDropOrdinal, hd]
      · simp only [ordinalGuard, specDropOrdinal, hd]
        simp
        intro h1 h2
        exact absurd ⟨h1, h2⟩ hd
    · unfold specDropOrdinal
      simp [ordinalGuard, hb]

theorem cleanFileName_steps (w : Bool) (name : List Nat) :
    cleanFileName w name =
      specDropOrdinal (specToSpace 45 (specToSpace 95 (TrimSuffix name (Ext w name)))) := by
  simp only [cleanFileName, ReplaceAll_underscore, ReplaceAll_hyphen]
  exact ordinalGuard_drop _

theorem cleanFileName_eq_specClean (w : Bool) (name : List Nat)
    (hsep : ∀ c ∈ name, IsPathSeparator w c = false) :
    cleanFileName w name = specClean name := by
  rw [cleanFileName_steps, TrimSuffix_Ext w name hsep, specClean]

theorem specToSpace_of_not_mem (b : Nat) (s : List Nat) (h : b ∉ s) : specToSpace b s = s := by
  induction s with
  | nil => rfl
  | cons c t ih =>
    have hc : ¬ c = b := fun e => h (by simp [e])
    have ht : b ∉ t := fun e => h (List.mem_cons_of_mem c e)
    have e : specToSpace b (c :: t) = c :: specToSpace b t := by
      simp [specToSpace, hc]
    rw [e, ih ht]

/-- Without `'.'`, `'_'` and `'-'` only the `if` of `cleanFileName` is left. -/
theorem cleanFileName_plain (w : Bool) (x : List Nat)
    (h1 : 46 ∉ x) (h2 : 95 ∉ x) (h3 : 45 ∉ x) : cleanFileName w x = specDropOrdinal x := by
  rw [cleanFileName_steps, Ext_no_dot w x h1, TrimSuffix_nil, specToSpace_of_not_mem 95 x h2,
    specToSpace_of_not_mem 45 x h3]

theorem specDropOrdinal_cases (s : List Nat) :
    (ordinalGuard s = false ∧ specDropOrdinal s = s) ∨
      (ordinalGuard s = true ∧ specDropOrdinal s = s.drop 2 ∧ 2 < s.length) := by
  have h := ordinalGuard_drop s
  cases hg : ordinalGuard s with
  | false => left; simpa [hg] using h.symm
  | true =>
    right
    refine ⟨rfl, by simpa [hg] using h.symm, ?_⟩
    simp only [ordinalGuard, Bool.and_eq_true, decide_eq_true_eq] at hg
    exact hg.1.1

theorem mem_specDropOrdinal (s : List Nat) (c : Nat) (h : c ∈ specDropOrdinal s) : c ∈ s := by
  rcases specDropOrdinal_cases s with ⟨_, e⟩ | ⟨_, e, _⟩
  · rwa [e] at h
  · rw [e] at h
    exact List.mem_of_mem_drop h

theorem specDropOrdinal_fixed_iff (s : List Nat) :
    specDropOrdinal s = s ↔ ordinalGuard s = false := by
  rcases specDropOrdinal_cases s with ⟨hg, e⟩ | ⟨hg, e, hl⟩
  · simp [hg, e]
  · simp only [hg, e, Bool.true_eq_false, iff_false]
    intro h
    have := congrArg List.length h
    simp only [List.length_drop] at this
    omega

theorem specDropOrdinal_ne_nil (s : List Nat) (h : s ≠ []) : specDropOrdinal s ≠ [] := by
  rcases specDropOrdinal_cases s with ⟨_, e⟩ | ⟨_, e, hl⟩
  · rwa [e]
  · rw [e]
    intro h0
    have := congrArg List.length h0
    simp only [List.length_drop, List.length_nil] at this
    omega

theorem specToSpace_ne_nil (b : Nat) (s : List Nat) (h : s ≠ []) : specToSpace b s ≠ [] := by
  simpa [specToSpace] using h

/-- Trimming the extension leaves something of a name that does not start with `'.'`,
path separators or not. -/
theorem TrimSuffix_Ext_ne_nil (w : Bool) (name : List Nat) (h0 : name ≠ [])
    (hdot : name.head? ≠ some 46) : TrimSuffix name (Ext w name) ≠ [] := by
  rcases extLoop_cases w name name.length with h | ⟨i, hi, hg, h⟩
  · rw [Ext, h, TrimSuffix_nil]
    exact h0
  · have hsplit : TrimSuffix name (Ext w name) = name.take i := by
      rw [Ext, h]
      have e := TrimSuffix_append (name.take i) (name.drop i)
      rwa [List.take_append_drop] at e
    rw [hsplit]
    cases i with
    | zero =>
      cases name with
      | nil => exact absurd rfl h0
      | cons a t =>
        simp only [List.get?_cons_zero, Option.some.injEq] at hg
        simp [hg] at hdot
    | succ j =>
      cases name with
      | nil => exact absurd rfl h0
      | cons a t => simp

/-- Step 1 of the specification keeps a prefix of the name. -/
theorem specStripExt_take (name : List Nat) : ∃ k, specStripExt name = name.take k := by
  by_cases h : 46 ∈ name
  · obtain ⟨stem, ext, e, hx⟩ := exists_last_dot name h
    subst e
    exact ⟨stem.length, by rw [specStripExt_split stem ext hx]; simp⟩
  · exact ⟨name.length, by rw [specStripExt_no_dot name h]; simp⟩

/-- The `if` of `cleanFileName` does not fire on the cleaned prefix of a name that does
not start with a digit, or that starts with two digits. -/
theorem ordinalGuard_take (name : List Nat) (k : Nat)
    (h : (∀ c, name.head? = some c → ¬ (48 ≤ c ∧ c ≤ 57)) ∨
      (∃ a b t, name = a :: b :: t ∧ (48 ≤ a ∧ a ≤ 57) ∧ (48 ≤ b ∧ b ≤ 57))) :
    ordinalGuard (specToSpace 45 (specToSpace 95 (name.take k))) = false := by
  cases hg : ordinalGuard (specToSpace 45 (specToSpace 95 (name.take k))) with
  | false => rfl
  | true =>
    exfalso
    match name, k, h, hg with
    | [], _, _, hg => simp [ordinalGuard, specToSpace] at hg
    | _ :: _, 0, _, hg => simp [ordinalGuard, specToSpace] at hg
    | [_], _ + 1, _, hg => simp [ordinalGuard, specToSpace] at hg
    | _ :: _ :: _, 1, _, hg => simp [ordinalGuard, specToSpace] at hg
    | a :: b :: t, k + 2, h, hg =>
      simp only [ordinalGuard, specToSpace, List.take_succ_cons, List.map_cons, List.get?_cons_succ,
        List.get?_cons_zero, Bool.and_eq_true, decide_eq_true_eq, beq_iff_eq,
        Option.some.injEq] at hg
      obtain ⟨⟨_, hb⟩, ha1, ha2⟩ := hg
      rcases h with h | ⟨a', b', t', e, ha, hb'⟩
      · apply h a rfl
        split_ifs at ha1 ha2 <;> omega
      · simp only [List.cons.injEq] at e
        obtain ⟨rfl, rfl, _⟩ := e
        split_ifs at hb <;> omega

/-! ## Name cleaning -/

/-- C1: for every file name without a path separator, `cleanFileName` returns what the
four-step name-cleaning algorithm of the specification returns: the name up to its last
`'.'`, with every `'_'` and every `'-'` replaced by a space, and without its first two
bytes when it is longer than 2 and starts with an ASCII digit and a space. -/
theorem cleanFileName_four_steps (windows : Bool) (name : List Nat)
    (hsep : ∀ c ∈ name, IsPathSeparator windows c = false) :
    cleanFileName windows name = specClean name :=
  cleanFileName_eq_specClean windows name hsep

/-- The example of the specification: `"1_Intro_to_Systems.pdf"` cleans to
`"Intro to Systems"`. -/
theorem cleanFileName_four_steps_witness :
    (∀ c ∈ goBytes "1_Intro_to_Systems.pdf", IsPathSeparator false c = false) ∧
      cleanFileName false (goBytes "1_Intro_to_Systems.pdf") =
        specClean (goBytes "1_Intro_to_Systems.pdf") ∧
      specClean (goBytes "1_Intro_to_Systems.pdf") = goBytes "Intro to Systems" :=
  ⟨by decide, cleanFileName_four_steps false (goBytes "1_Intro_to_Systems.pdf") (by decide),
    by decide⟩

/-- C2 as stated fails at `"1 2 a"`: it has no `'.'`, `'_'` or `'-'`, its cleaned name is `"2 a"`,
and cleaning that again gives `"a"`. -/
theorem cleanFileName_twice_differs :
    46 ∉ goBytes "1 2 a" ∧ 95 ∉ goBytes "1 2 a" ∧ 45 ∉ goBytes "1 2 a" ∧
      cleanFileName false (goBytes "1 2 a") = goBytes "2 a" ∧
      cleanFileName false (cleanFileName false (goBytes "1 2 a")) = goBytes "a" ∧
      cleanFileName false (cleanFileName false (goBytes "1 2 a")) ≠
        cleanFileName false (goBytes "1 2 a") := by
  decide

/-- C2, amended: for every `x` without `'.'`, `'_'` and `'-'`, cleaning the cleaned name
again changes nothing exactly when the cleaned name does not itself pass the test of the
leading-ordinal strip (longer than 2, an ASCII digit first, a space second); when it
does pass, the second cleaning strips two more bytes. -/
theorem cleanFileName_idempotent_iff (windows : Bool) (x : List Nat)
    (h1 : 46 ∉ x) (h2 : 95 ∉ x) (h3 : 45 ∉ x) :
    (cleanFileName windows (cleanFileName windows x) = cleanFileName windows x ↔
      ordinalGuard (cleanFileName windows x) = false) ∧
    (ordinalGuard (cleanFileName windows x) = true →
      cleanFileName windows (cleanFileName windows x) = (cleanFileName windows x).drop 2) := by
  have e := cleanFileName_plain windows x h1 h2 h3
  have e2 : cleanFileName windows (specDropOrdinal x) = specDropOrdinal (specDropOrdinal x) :=
    cleanFileName_plain windows _ (fun h => h1 (mem_specDropOrdinal x 46 h))
      (fun h => h2 (mem_specDropOrdinal x 95 h)) (fun h => h3 (mem_specDropOrdinal x 45 h))
  rw [e, e2]
  refine ⟨specDropOrdinal_fixed_iff _, fun hg => ?_⟩
  rcases specDropOrdinal_cases (specDropOrdinal x) with ⟨hf, _⟩ | ⟨_, hd, _⟩
  · rw [hf] at hg
    exact absurd hg (by decide)
  · exact hd

/-- A name with one ordinal prefix: `"1 Intro to Systems"` cleans to `"Intro to Systems"`,
which cleaning leaves as it is; and a name with two: `"1 2 a"` cleans to `"2 a"`, of which
the second cleaning strips `"2 "`. -/
theorem cleanFileName_idempotent_iff_witness :
    (46 ∉ goBytes "1 Intro to Systems" ∧ 95 ∉ goBytes "1 Intro to Systems" ∧
      45 ∉ goBytes "1 Intro to Systems" ∧
      ordinalGuard (cleanFileName false (goBytes "1 Intro to Systems")) = false ∧
      cleanFileName false (cleanFileName false (goBytes "1 Intro to Systems")) =
        cleanFileName false (goBytes "1 Intro to Systems")) ∧
    (ordinalGuard (cleanFileName false (goBytes "1 2 a")) = true ∧
      cleanFileName false (cleanFileName false (goBytes "1 2 a")) =
        (cleanFileName false (goBytes "1 2 a")).drop 2 ∧
      (cleanFileName false (goBytes "1 2 a")).drop 2 = goBytes "a") :=
  ⟨⟨by decide, by decide, by decide, by decide,
      (cleanFileName_idempotent_iff false (goBytes "1 Intro to Systems")
        (by decide) (by decide) (by decide)).1.mpr (by decide)⟩,
    ⟨by decide,
      (cleanFileName_idempotent_iff false (goBytes "1 2 a")
        (by decide) (by decide) (by decide)).2 (by decide),
      by decide⟩⟩

/-- C3: for every file name without a path separator whose first byte is not an ASCII
digit, or whose first two bytes are both ASCII digits, `cleanFileName` returns the name
up to its last `'.'` with every `'_'` and `'-'` replaced by a space, nothing removed
from its front. -/
theorem cleanFileName_keeps_front (windows : Bool) (name : List Nat)
    (hsep : ∀ c ∈ name, IsPathSeparator windows c = false)
    (h : (∀ c, name.head? = some c → ¬ (48 ≤ c ∧ c ≤ 57)) ∨
      (∃ a b t, name = a :: b :: t ∧ (48 ≤ a ∧ a ≤ 57) ∧ (48 ≤ b ∧ b ≤ 57))) :
    cleanFileName windows name = specToSpace 45 (specToSpace 95 (specStripExt name)) := by
  rw [cleanFileName_eq_specClean windows name hsep, specClean]
  obtain ⟨k, hk⟩ := specStripExt_take name
  rw [hk]
  exact (specDropOrdinal_fixed_iff _).mpr (ordinalGuard_take name k h)

/-- The three examples: a first byte that is no digit (twice), and two leading digits. -/
theorem cleanFileName_keeps_front_witness :
    (cleanFileName false (goBytes "Chapter-5-Notes.txt") =
        specToSpace 45 (specToSpace 95 (specStripExt (goBytes "Chapter-5-Notes.txt"))) ∧
      cleanFileName false (goBytes "Chapter-5-Notes.txt") = goBytes "Chapter 5 Notes") ∧
    (cleanFileName false (goBytes "notes.md") =
        specToSpace 45 (specToSpace 95 (specStripExt (goBytes "notes.md"))) ∧
      cleanFileName false (goBytes "notes.md") = goBytes "notes") ∧
    (cleanFileName false (goBytes "12 Chapter.pdf") =
        specToSpace 45 (specToSpace 95 (specStripExt (goBytes "12 Chapter.pdf"))) ∧
      cleanFileName false (goBytes "12 Chapter.pdf") = goBytes "12 Chapter") :=
  ⟨⟨cleanFileName_keeps_front false (goBytes "Chapter-5-Notes.txt") (by decide)
      (Or.inl (by decide)), by decide⟩,
    ⟨cleanFileName_keeps_front false (goBytes "notes.md") (by decide) (Or.inl (by decide)),
      by decide⟩,
    ⟨cleanFileName_keeps_front false (goBytes "12 Chapter.pdf") (by decide)
      (Or.inr ⟨49, 50, goBytes " Chapter.pdf", by decide, by decide, by decide⟩), by decide⟩⟩

/-- C10: for every non-empty name that does not begin with `'.'` (the names the catalog
loop does not skip), `cleanFileName` returns a non-empty string. -/
theorem cleanFileName_ne_nil (windows : Bool) (name : List Nat) (hne : name ≠ [])
    (hdot : name.head? ≠ some 46) : cleanFileName windows name ≠ [] := by
  rw [cleanFileName_steps]
  exact specDropOrdinal_ne_nil _ (specToSpace_ne_nil _ _ (specToSpace_ne_nil _ _
    (TrimSuffix_Ext_ne_nil windows name hne hdot)))

/-- A name on which the leading-ordinal strip fires: `"1 a.pdf"` cleans to `"a"`. -/
theorem cleanFileName_ne_nil_witness :
    goBytes "1 a.pdf" ≠ [] ∧ (goBytes "1 a.pdf").head? ≠ some 46 ∧
      cleanFileName false (goBytes "1 a.pdf") = goBytes "a" ∧
      cleanFileName false (goBytes "1 a.pdf") ≠ [] :=
  ⟨by decide, by decide, by decide,
    cleanFileName_ne_nil false (goBytes "1 a.pdf") (by decide) (by decide)⟩

/-! ## The catalog -/

theorem HasPrefix_dot (s : List Nat) : HasPrefix s (goBytes ".") = (s.head? == some 46) := by
  have e : goBytes "." = [46] := by decide
  rw [e]
  cases s with
  | nil => rfl
  | cons a t => simp [HasPrefix]

theorem buildBooks_foldl (w : Bool) (files : List DirEntry) :
    ∀ acc : List BookData,
      files.foldl
        (fun books file =>
          if file.IsDir || HasPrefix file.Name (goBytes ".") then books
          else
            books ++ [{ DisplayName := cleanFileName w file.Name, FileName := file.Name,
                        URL := goBytes "/literature/" ++ PathEscape file.Name }])
        acc = acc ++ (files.filter eligible).map (fun f => bookFor w f.Name) := by
  induction files with
  | nil => intro acc; simp
  | cons f t ih =>
    intro acc
    have hcond : (f.IsDir || HasPrefix f.Name (goBytes ".")) = !eligible f := by
      rw [HasPrefix_dot, eligible, bne]
      cases f.IsDir <;> cases (f.Name.head? == some 46) <;> rfl
    rw [List.foldl_cons, ih]
    cases he : eligible f with
    | false =>
      rw [List.filter_cons_of_neg (by simp [he])]
      simp [hcond, he]
    | true =>
      rw [List.filter_cons_of_pos he]
      simp [hcond, he, bookFor]

theorem buildBooks_eq (w : Bool) (files : List DirEntry) :
    buildBooks w files = (files.filter eligible).map (fun f => bookFor w f.Name) := by
  have h := buildBooks_foldl w files []
  simpa [buildBooks] using h

/-- C4: the file names of the catalog entries are the names of the children that are not
directories and whose name does not begin with `'.'`, each as it is, once each, in the
order of the listing. -/
theorem buildBooks_fileNames (windows : Bool) (files : List DirEntry) :
    (buildBooks windows files).map (fun b => b.FileName) =
      (files.filter (fun f => !f.IsDir && f.Name.head? != some 46)).map (fun f => f.Name) := by
  rw [buildBooks_eq, List.map_map]
  rfl

/-- The example of the specification: of `.gitkeep` and `book.pdf` the catalog has the one
entry for `book.pdf`. -/
theorem buildBooks_fileNames_witness :
    (buildBooks false
        [{ Name := goBytes ".gitkeep", IsDir := false },
         { Name := goBytes "book.pdf", IsDir := false }]).map (fun b => b.FileName) =
      [goBytes "book.pdf"] :=
  (buildBooks_fileNames false
    [{ Name := goBytes ".gitkeep", IsDir := false },
     { Name := goBytes "book.pdf", IsDir := false }]).trans (by decide)

/-- C5: every catalog entry is a function of its file name: its display name is
`cleanFileName` of the file name and its URL is `"/literature/"` followed by
`url.PathEscape` of the file name; so an entry with the same file name has the same
display name and URL. -/
theorem buildBooks_entry (windows : Bool) (files : List DirEntry) (e : BookData)
    (he : e ∈ buildBooks windows files) :
    (e.DisplayName = cleanFileName windows e.FileName ∧
        e.URL = goBytes "/literature/" ++ PathEscape e.FileName) ∧
      ∀ e2 ∈ buildBooks windows files, e2.FileName = e.FileName →
        e2.DisplayName = e.DisplayName ∧ e2.URL = e.URL := by
  have key : ∀ b ∈ buildBooks windows files, b = bookFor windows b.FileName := by
    intro b hb
    rw [buildBooks_eq] at hb
    obtain ⟨f, _, rfl⟩ := List.mem_map.mp hb
    rfl
  have h1 := key e he
  refine ⟨⟨congrArg BookData.DisplayName h1, congrArg BookData.URL h1⟩, ?_⟩
  intro e2 he2 hn
  have h2 := key e2 he2
  rw [hn] at h2
  rw [h2]
  exact ⟨(congrArg BookData.DisplayName h1).symm, (congrArg BookData.URL h1).symm⟩

/-- The entry of the file `1_My book.pdf`. -/
theorem buildBooks_entry_witness :
    buildBooks false [{ Name := goBytes "1_My book.pdf", IsDir := false }] =
        [{ DisplayName := goBytes "My book", FileName := goBytes "1_My book.pdf",
           URL := goBytes "/literature/1_My%20book.pdf" }] ∧
      goBytes "My book" = cleanFileName false (goBytes "1_My book.pdf") ∧
      goBytes "/literature/1_My%20book.pdf" =
        goBytes "/literature/" ++ PathEscape (goBytes "1_My book.pdf") :=
  ⟨by decide,
    (buildBooks_entry false [{ Name := goBytes "1_My book.pdf", IsDir := false }]
      { DisplayName := goBytes "My book", FileName := goBytes "1_My book.pdf",
        URL := goBytes "/literature/1_My%20book.pdf" } (by decide)).1⟩

/-- The catalog handler never panics: its status codes are the constants 500 and 200, so
what the client receives is the response of `literatureResponse`. -/
theorem literatureAPIHandler_served (windows : Bool) (jsonString : List Nat → List Nat)
    (files : List DirEntry) (err : Option (List Nat)) :
    (literatureAPIHandler windows jsonString (files, err) ResponseWriter.fresh).served =
      some (literatureResponse windows jsonString (files, err)) := by
  cases err <;> rfl

/-- C6: the response of `literatureAPIHandler` has status 500 exactly when reading the
directory failed, and then its body is the error text, as plain text; when the read
succeeded the status is 200 and the body is the JSON encoding of the catalog; for a
listing with no eligible child (the empty listing among them) that body is `null`, the
encoding of the empty (`nil`) slice. -/
theorem literatureResponse_status (windows : Bool) (jsonString : List Nat → List Nat)
    (files : List DirEntry) (err : Option (List Nat)) :
    ((literatureResponse windows jsonString (files, err)).status = 500 ↔ err ≠ none) ∧
    (∀ e, err = some e →
      (literatureResponse windows jsonString (files, err)).status = 500 ∧
      (literatureResponse windows jsonString (files, err)).body =
        goBytes "Помилка читання папки: " ++ e ++ goBytes "\n" ∧
      Header.Get (literatureResponse windows jsonString (files, err)).header
        (goBytes "Content-Type") = goBytes "text/plain; charset=utf-8") ∧
    (err = none →
      (literatureResponse windows jsonString (files, err)).status = 200 ∧
      (literatureResponse windows jsonString (files, err)).body =
        marshalBooks jsonString (buildBooks windows files) ++ goBytes "\n" ∧
      Header.Get (literatureResponse windows jsonString (files, err)).header
        (goBytes "Content-Type") = goBytes "application/json") ∧
    (err = none → (∀ f ∈ files, f.IsDir = true ∨ f.Name.head? = some 46) →
      (literatureResponse windows jsonString (files, err)).status = 200 ∧
      (literatureResponse windows jsonString (files, err)).body = goBytes "null\n") := by
  cases err with
  | some e =>
    refine ⟨⟨fun _ => by simp, fun _ => rfl⟩, ?_, fun h => by simp at h, fun h => by simp at h⟩
    intro e2 he2
    cases he2
    exact ⟨rfl, rfl, rfl⟩
  | none =>
    have hs : (literatureResponse windows jsonString (files, none)).status = 200 := rfl
    have hb : (literatureResponse windows jsonString (files, none)).body =
        marshalBooks jsonString (buildBooks windows files) ++ goBytes "\n" := rfl
    refine ⟨⟨fun h => by rw [hs] at h; omega, fun h => absurd rfl h⟩, fun e he => by simp at he,
      fun _ => ⟨hs, hb, rfl⟩, ?_⟩
    intro _ hall
    refine ⟨hs, ?_⟩
    have hnil : buildBooks windows files = [] := by
      rw [buildBooks_eq, List.map_eq_nil_iff, List.filter_eq_nil_iff]
      intro f hf
      rcases hall f hf with h | h <;> simp [eligible, h]
    rw [hb, hnil]
    show goBytes "null" ++ goBytes "\n" = goBytes "null\n"
    decide

/-- A directory that cannot be read gives 500; an empty directory gives 200 and `null`. -/
theorem literatureResponse_status_witness :
    ((literatureResponse false id ([], some (goBytes "open: no such file or directory"))).status
        = 500) ∧
    ((literatureResponse false id ([], none)).status = 200 ∧
      (literatureResponse false id ([], none)).body = goBytes "null\n") :=
  ⟨((literatureResponse_status false id []
      (some (goBytes "open: no such file or directory"))).2.1 _ rfl).1,
    (literatureResponse_status false id [] none).2.2.2 rfl (by simp)⟩

/-! ## The proxy -/

/-- The relay of main.go, lines 126-127, leaves the header map of the response as it was
at the call, whatever the status code. -/
theorem relay_header (w : ResponseWriter) (s : Nat) (b : List Nat) (hp : w.panicked = false)
    (hs : w.sent = none) : (Copy (w.WriteHeader s) b).finish.header = w.header := by
  have hv : invalidWriteHeaderCode 200 = false := by decide
  by_cases h1 : invalidWriteHeaderCode s = true
  · have hw : w.WriteHeader s = { w with panicked := true } := by
      simp only [ResponseWriter.WriteHeader, hp, hs, h1, Bool.false_eq_true, if_false, if_true]
    rw [hw]
    by_cases hb : b = []
    · simp [Copy, hb, ResponseWriter.finish, hs]
    · simp [Copy, hb, ResponseWriter.Write, ResponseWriter.finish, hs]
  · by_cases h2 : 100 ≤ s ∧ s ≤ 199 ∧ s ≠ 101
    · have hw : w.WriteHeader s = { w with
          informational := w.informational ++
            [(s, Header.Del (Header.Del w.header (goBytes "Content-Length"))
              (goBytes "Transfer-Encoding"))] } := by
        simp only [ResponseWriter.WriteHeader, hp, hs, h1, h2, Bool.false_eq_true, if_false,
          if_true, and_self, ne_eq, not_false_eq_true]
      rw [hw]
      by_cases hb : b = []
      · simp [Copy, hb, ResponseWriter.finish, hs]
      · simp [Copy, hb, ResponseWriter.Write, ResponseWriter.WriteHeader, ResponseWriter.finish,
          hs, hp, hv, bodyAllowedForStatus]
    · have hw : w.WriteHeader s = { w with sent := some (s, w.header) } := by
        simp only [ResponseWriter.WriteHeader, hp, hs, h1, h2, Bool.false_eq_true, if_false]
      rw [hw]
      by_cases hb : b = []
      · simp [Copy, hb, ResponseWriter.finish]
      · by_cases ha : bodyAllowedForStatus s = true
        · simp [Copy, hb, ResponseWriter.Write, ResponseWriter.WriteHeader,
            ResponseWriter.finish, hp, ha]
        · simp [Copy, hb, ResponseWriter.Write, ResponseWriter.WriteHeader,
            ResponseWriter.finish, hp, ha]

/-- C9: every response of `runCodeProxyHandler` carries the three CORS headers, on every
branch: whatever the method, whether or not the outbound request could be constructed,
and whether the outbound call failed or answered. -/
theorem proxy_cors
    (newRequest : List Nat → List Nat → List Nat → Except (List Nat) OutRequest)
    (clientDo : OutRequest → Except (List Nat) UpstreamResponse) (r : Request) :
    hasCORS
      (proxyResponse (runCodeProxyHandler newRequest clientDo r ResponseWriter.fresh)).header := by
  by_cases h1 : r.Method = goBytes "OPTIONS"
  · simp only [runCodeProxyHandler, h1, if_true]
    exact ⟨rfl, rfl, rfl⟩
  · by_cases h2 : r.Method = goBytes "POST"
    · have hne : ¬ goBytes "POST" = goBytes "OPTIONS" := by decide
      simp only [runCodeProxyHandler, h2, hne, if_false, ne_eq, not_true_eq_false]
      cases newRequest (goBytes "POST") playgroundURL r.Body with
      | error e => exact ⟨rfl, rfl, rfl⟩
      | ok req =>
        simp only []
        cases clientDo { req with
            Header := Header.Set req.Header (goBytes "Content-Type")
              (Header.Get r.Header (goBytes "Content-Type")) } with
        | error e => exact ⟨rfl, rfl, rfl⟩
        | ok resp =>
          have hh := relay_header (((ResponseWriter.fresh.SetHeader
            (goBytes "Access-Control-Allow-Origin") (goBytes "*")).SetHeader
            (goBytes "Access-Control-Allow-Headers") (goBytes "Content-Type")).SetHeader
            (goBytes "Access-Control-Allow-Methods") (goBytes "POST, OPTIONS"))
            resp.StatusCode resp.Body rfl rfl
          show hasCORS (Copy ((((ResponseWriter.fresh.SetHeader
            (goBytes "Access-Control-Allow-Origin") (goBytes "*")).SetHeader
            (goBytes "Access-Control-Allow-Headers") (goBytes "Content-Type")).SetHeader
            (goBytes "Access-Control-Allow-Methods") (goBytes "POST, OPTIONS")).WriteHeader
            resp.StatusCode) resp.Body).finish.header
          rw [hh]
          exact ⟨rfl, rfl, rfl⟩
    · simp only [runCodeProxyHandler, h1, h2, if_false, ne_eq, not_false_eq_true, if_true]
      exact ⟨rfl, rfl, rfl⟩

end GoLearn
